import Mathlib

/-!
# Verification of the MCIF quiz repository

Shallow embedding of the scoring, archetype-matching, session save/restore,
navigation and schema-loading logic of the MCIF self-assessment quiz
(`app.js`, `script.js` and the unnamed variant files), together with proofs
of the testable properties stated in the specification.

Modelling conventions:
* JavaScript numbers are modelled by `ℚ` (all the arithmetic performed by the
  quiz code is elementary: sums, products by decimal constants, divisions).
* `Math.round` is round-half-toward-positive-infinity, i.e. `⌊q + 1/2⌋`.
* `Math.sqrt` (used only for the standard deviation inside `computeResults`)
  has no exact rational counterpart, so code that calls it is parametrised by
  a function `sqrt : ℚ → ℚ`; no theorem below depends on the value of `sqrt`.
* A normalized phase is represented by its number of questions (`ℕ`); none of
  the verified properties depends on prompt texts or option labels.
* The answers map `{ phaseIndex: { qIndex: answer } }` is a function
  `ℕ → ℕ → Option Answer`.
-/

set_option linter.unusedVariables false

namespace MCIF

/-- JS `Math.round`: round half toward positive infinity. -/
def jsRound (q : ℚ) : ℤ := ⌊q + 1/2⌋

lemma le_jsRound {a : ℤ} {q : ℚ} (h : (a : ℚ) ≤ q) : a ≤ jsRound q := by
  unfold jsRound
  exact Int.le_floor.mpr (by linarith)

lemma jsRound_le {b : ℤ} {q : ℚ} (h : q ≤ (b : ℚ)) : jsRound q ≤ b := by
  unfold jsRound
  have h1 : ⌊q + 1/2⌋ ≤ ⌊(b : ℚ) + 1/2⌋ := Int.floor_le_floor (by linarith)
  have h2 : ⌊(b : ℚ) + 1/2⌋ = b + ⌊(1/2 : ℚ)⌋ := Int.floor_int_add b (1/2 : ℚ)
  have h3 : ⌊(1/2 : ℚ)⌋ = 0 := by
    rw [Int.floor_eq_zero_iff]
    constructor <;> norm_num
  omega

/-- Helper for JS `String.prototype.includes`: `startsWithChars needle hay`
holds when `hay` starts with `needle`. -/
def startsWithChars : List Char → List Char → Bool
  | [], _ => true
  | _ :: _, [] => false
  | a :: as, b :: bs => a == b && startsWithChars as bs

/-- Helper for JS `String.prototype.includes`: `hasSubChars needle hay` holds
when `needle` occurs as a contiguous run inside `hay`. -/
def hasSubChars (needle : List Char) : List Char → Bool
  | [] => startsWithChars needle []
  | b :: bs => startsWithChars needle (b :: bs) || hasSubChars needle bs

/-- JS `hay.includes(needle)`. -/
def strIncludes (hay needle : String) : Bool := hasSubChars needle.data hay.data

namespace App

/-- `clamp(n, a, b)` from app.js: `Math.max(a, Math.min(b, n))`. -/
def clamp (n a b : ℚ) : ℚ := max a (min b n)

/-- `normScore` from app.js: `Math.round(clamp(v, 0, 100))`.  (The
`typeof v !== 'number'` guard never fires in this embedding because every
value fed to `normScore` is a number.) -/
def normScore (v : ℚ) : ℤ := jsRound (clamp v 0 100)

lemma normScore_nonneg (v : ℚ) : 0 ≤ normScore v := by
  apply le_jsRound
  have : (0 : ℚ) ≤ clamp v 0 100 := le_max_left _ _
  push_cast
  linarith

lemma normScore_le (v : ℚ) : normScore v ≤ 100 := by
  apply jsRound_le
  have : clamp v 0 100 ≤ 100 := max_le (by norm_num) (min_le_left _ _)
  push_cast
  linarith

/-- A recorded answer, as stored by `recordAnswer` in app.js: a
multiple-choice pick carries its numeric value and optional tag, a slider
carries its numeric value, a text answer carries the raw string. -/
inductive Answer where
  | mc (value : ℚ) (tag : Option String)
  | slider (value : ℚ)
  | text (raw : String)

/-- The five domain accumulators initialised at the top of `computeResults`. -/
structure Domains where
  perception : ℚ
  logic : ℚ
  creativity : ℚ
  emotion : ℚ
  meta : ℚ

/-- The per-answer branch of the `computeResults` accumulation loop
(app.js: the `multiple_choice` / `slider` / `text` cases). -/
def answerContribution (d : Domains) (a : Answer) : Domains :=
  match a with
  | .mc value tag =>
    let v := value
    match tag with
    | some t =>
      if t = "logic" ∨ t = "analysis" then { d with logic := d.logic + v * 1.2 }
      else if t = "meta" then { d with meta := d.meta + v * 1.3 }
      else if t = "creative" ∨ t = "practical" then
        { d with creativity := d.creativity + v * 1.1 }
      else if t = "emotion" ∨ t = "compassion" then
        { d with emotion := d.emotion + v * 1.2 }
      else { d with perception := d.perception + v * 0.9 }
    | none => { d with perception := d.perception + v * 0.9 }
  | .slider value =>
    { d with perception := d.perception + value * 0.18,
             logic := d.logic + value * 0.18,
             creativity := d.creativity + value * 0.18,
             emotion := d.emotion + value * 0.18,
             meta := d.meta + value * 0.18 }
  | .text raw =>
    let text := raw.toLower
    let len : ℚ := min 300 (text.length : ℚ)
    let d := { d with meta := d.meta + len * 0.06 }
    let d := if strIncludes text "feel" ∨ strIncludes text "emotion" ∨ strIncludes text "anx"
      then { d with emotion := d.emotion + min 12 (len * 0.04) } else d
    let d := if strIncludes text "system" ∨ strIncludes text "process" ∨ strIncludes text "logic"
      then { d with logic := d.logic + min 14 (len * 0.05) } else d
    let d := if strIncludes text "imagine" ∨ strIncludes text "create" ∨ strIncludes text "invent"
      then { d with creativity := d.creativity + min 16 (len * 0.05) } else d
    let d := if strIncludes text "notice" ∨ strIncludes text "observe" ∨ strIncludes text "perceive"
      then { d with perception := d.perception + min 12 (len * 0.04) } else d
    d

/-- The double loop of `computeResults` (`for pi … for qi … if (!a) continue`):
the list of present answers in phase-then-question order.  A phase is
represented by its question count. -/
def gatherAnswers (phases : List ℕ) (answers : ℕ → ℕ → Option Answer) : List Answer :=
  (phases.enum.map (fun pq => (List.range pq.2).filterMap (fun qi => answers pq.1 qi))).flatten

/-- Domain totals after the accumulation loop of `computeResults`. -/
def domainTotals (answersList : List Answer) : Domains :=
  answersList.foldl answerContribution ⟨0, 0, 0, 0, 0⟩

/-- `Math.max(1, countContributions * 10)` from `computeResults`. -/
def normalizer (answersList : List Answer) : ℚ :=
  max 1 ((answersList.length : ℚ) * 10)

/-- The five normalized domain scores (integers, each `normScore`-clamped). -/
structure DomainScores where
  perception : ℤ
  logic : ℤ
  creativity : ℤ
  emotion : ℤ
  meta : ℤ
deriving DecidableEq

/-- The `scores` object of `computeResults`. -/
def domainScoresOf (answersList : List Answer) : DomainScores :=
  let d := domainTotals answersList
  let n := normalizer answersList
  ⟨normScore (d.perception / n * 100), normScore (d.logic / n * 100),
   normScore (d.creativity / n * 100), normScore (d.emotion / n * 100),
   normScore (d.meta / n * 100)⟩

/-- `Object.values(scores)` in insertion order. -/
def scoresList (s : DomainScores) : List ℚ :=
  [(s.perception : ℚ), (s.logic : ℚ), (s.creativity : ℚ), (s.emotion : ℚ), (s.meta : ℚ)]

/-- Adaptability: `Math.round(100 - normScore(stddev * 1.6))` where `stddev`
is the standard deviation of the five domain scores.  `Math.sqrt` is the
`sqrt` parameter. -/
def adaptabilityOf (sqrt : ℚ → ℚ) (s : DomainScores) : ℤ :=
  let arr := scoresList s
  let mean := arr.sum / (arr.length : ℚ)
  let variance := (arr.map (fun v => (v - mean) ^ 2)).sum / (arr.length : ℚ)
  let stddev := sqrt variance
  jsRound ((100 : ℚ) - (normScore (stddev * 1.6) : ℚ))

lemma jsRound_hundred_sub_normScore_bounds (v : ℚ) :
    0 ≤ jsRound ((100 : ℚ) - (normScore v : ℚ)) ∧
      jsRound ((100 : ℚ) - (normScore v : ℚ)) ≤ 100 := by
  have h1 : (0 : ℚ) ≤ (normScore v : ℚ) := by exact_mod_cast normScore_nonneg v
  have h2 : (normScore v : ℚ) ≤ 100 := by exact_mod_cast normScore_le v
  constructor
  · apply le_jsRound; push_cast; linarith
  · apply jsRound_le; push_cast; linarith

lemma adaptabilityOf_bounds (sqrt : ℚ → ℚ) (s : DomainScores) :
    0 ≤ adaptabilityOf sqrt s ∧ adaptabilityOf sqrt s ≤ 100 := by
  unfold adaptabilityOf
  exact jsRound_hundred_sub_normScore_bounds _

/-- The composite percentage: weighted sum of the five domain scores (15%
each) and adaptability (25%), passed once more through `normScore`. -/
def compositePercentOf (s : DomainScores) (adaptability : ℤ) : ℤ :=
  normScore ((s.perception : ℚ) * 0.15 + (s.logic : ℚ) * 0.15 + (s.creativity : ℚ) * 0.15 +
    (s.emotion : ℚ) * 0.15 + (s.meta : ℚ) * 0.15 + (adaptability : ℚ) * 0.25)

/-- The record returned by `computeResults`. -/
structure Results where
  domainScores : DomainScores
  adaptability : ℤ
  compositePercent : ℤ
  composite700 : ℤ

/-- `computeResults` from app.js (scoring engine). -/
def computeResults (sqrt : ℚ → ℚ) (phases : List ℕ) (answers : ℕ → ℕ → Option Answer) :
    Results :=
  let contributions := gatherAnswers phases answers
  let scores := domainScoresOf contributions
  let adaptability := adaptabilityOf sqrt scores
  let compositePercent := compositePercentOf scores adaptability
  ⟨scores, adaptability, compositePercent, jsRound ((compositePercent : ℚ) / 100 * 700)⟩

lemma computeResults_compositePercent_bounds (sqrt : ℚ → ℚ) (phases : List ℕ)
    (answers : ℕ → ℕ → Option Answer) :
    0 ≤ (computeResults sqrt phases answers).compositePercent ∧
      (computeResults sqrt phases answers).compositePercent ≤ 100 :=
  ⟨normScore_nonneg _, normScore_le _⟩

lemma jsRound_percent_to700_bounds {p : ℤ} (h1 : 0 ≤ p) (h2 : p ≤ 100) :
    0 ≤ jsRound ((p : ℚ) / 100 * 700) ∧ jsRound ((p : ℚ) / 100 * 700) ≤ 700 := by
  have h1' : (0 : ℚ) ≤ (p : ℚ) := by exact_mod_cast h1
  have h2' : (p : ℚ) ≤ 100 := by exact_mod_cast h2
  constructor
  · apply le_jsRound; push_cast; linarith
  · apply jsRound_le; push_cast; linarith

lemma computeResults_composite700_bounds (sqrt : ℚ → ℚ) (phases : List ℕ)
    (answers : ℕ → ℕ → Option Answer) :
    0 ≤ (computeResults sqrt phases answers).composite700 ∧
      (computeResults sqrt phases answers).composite700 ≤ 700 :=
  jsRound_percent_to700_bounds (normScore_nonneg _) (normScore_le _)

/-- An archetype prototype from `pickArchetype`: identifier, display name and
matching rule.  (Summary and career strings are display data and are not
modelled.) -/
structure Prototype where
  protoId : String
  name : String
  matchRule : DomainScores → Bool

/-- The `prototypes` array of `pickArchetype`, in source order.  The last
entry, Balanced Strategist, matches every profile. -/
def prototypes : List Prototype :=
  [⟨"reflective_architect", "Reflective Architect",
      fun d => decide (55 ≤ d.meta ∧ 50 ≤ d.logic)⟩,
   ⟨"empathic_inventor", "Empathic Inventor",
      fun d => decide (60 ≤ d.creativity ∧ 50 ≤ d.emotion)⟩,
   ⟨"visionary_synthesist", "Visionary Synthesist",
      fun d => decide (60 ≤ d.creativity ∧ 60 ≤ d.meta)⟩,
   ⟨"grounded_operator", "Grounded Operator",
      fun d => decide (65 ≤ d.logic ∧ d.meta < 55)⟩,
   ⟨"dreaming_idealist", "Dreaming Idealist",
      fun d => decide (60 ≤ d.emotion ∧ d.logic < 45)⟩,
   ⟨"balanced_strategist", "Balanced Strategist", fun _ => true⟩]

/-- `Object.entries(s)` in insertion order. -/
def entriesOf (s : DomainScores) : List (String × ℤ) :=
  [("perception", s.perception), ("logic", s.logic), ("creativity", s.creativity),
   ("emotion", s.emotion), ("meta", s.meta)]

/-- `entries.sort((a, b) => b[1] - a[1])`: stable sort, descending by score. -/
def sortedEntries (s : DomainScores) : List (String × ℤ) :=
  (entriesOf s).mergeSort (fun a b => decide (b.2 ≤ a.2))

/-- The scores of the top two entries (`entries[0][1]`, `entries[1][1]`).
The default branch is unreachable: the sorted list always has five entries. -/
def topTwoScores (s : DomainScores) : ℤ × ℤ :=
  match sortedEntries s with
  | a :: b :: _ => (a.2, b.2)
  | _ => (0, 0)

/-- The value returned by `pickArchetype` (display strings omitted). -/
structure ArchetypeResult where
  protoId : String
  name : String
  confidence : ℤ

/-- `pickArchetype` from app.js: first matching prototype (Balanced
Strategist as fallback) and confidence
`clamp(Math.round(((top - second) + 50) * 0.9), 20, 98)`. -/
def pickArchetype (s : DomainScores) : ArchetypeResult :=
  let chosen := (prototypes.find? (fun p => p.matchRule s)).getD
    ⟨"balanced_strategist", "Balanced Strategist", fun _ => true⟩
  let t := topTwoScores s
  let confidence := jsRound ((((t.1 : ℚ) - (t.2 : ℚ)) + 50) * 0.9)
  ⟨chosen.protoId, chosen.name, max 20 (min 98 confidence)⟩

lemma pickArchetype_total (s : DomainScores) :
    (prototypes.find? (fun p => p.matchRule s)).isSome = true := by
  rw [List.find?_isSome]
  exact ⟨⟨"balanced_strategist", "Balanced Strategist", fun _ => true⟩,
    by simp [prototypes], rfl⟩

lemma pickArchetype_confidence_bounds (s : DomainScores) :
    20 ≤ (pickArchetype s).confidence ∧ (pickArchetype s).confidence ≤ 98 := by
  unfold pickArchetype
  exact ⟨le_max_left _ _, max_le (by norm_num) (min_le_left _ _)⟩

/-- The mutable state of the app.js engine that the session, navigation and
answer-recording operations read and write. -/
structure AppState where
  currentPhaseIndex : ℕ
  currentQuestionIndex : ℕ
  answers : ℕ → ℕ → Option Answer
  inProgress : Bool

/-- The payload written by `saveSession` (schema/app version and timestamp
fields play no role in restoring the modelled state).
`JSON.stringify`/`JSON.parse` round-trip plain data objects exactly, so the
local store slot holds the structured payload itself. -/
structure SessionPayload where
  currentPhaseIndex : ℕ
  currentQuestionIndex : ℕ
  answers : ℕ → ℕ → Option Answer
  inProgress : Bool

/-- `saveSession` from app.js: snapshot the current state. -/
def saveSession (s : AppState) : SessionPayload :=
  ⟨s.currentPhaseIndex, s.currentQuestionIndex, s.answers, s.inProgress⟩

/-- The phase index set at the top of `renderCurrentQuestion`:
`clamp(currentPhaseIndex, 0, Math.max(0, phases.length - 1))`.  Natural
subtraction matches the JS `Math.max(0, len - 1)` exactly. -/
def clampedPhase (phases : List ℕ) (s : AppState) : ℕ :=
  min s.currentPhaseIndex (phases.length - 1)

/-- The state mutation performed by `renderCurrentQuestion`: when the test
section element exists, the phase index is clamped; if the clamped phase
exists, the question index is clamped to its question range (after which
rendering proceeds, or aborts when the question is still missing — either
way the state mutation is the same). -/
def renderClamp (phases : List ℕ) (hasTestSection : Bool) (s : AppState) : AppState :=
  if hasTestSection then
    match phases[clampedPhase phases s]? with
    | none => { s with currentPhaseIndex := clampedPhase phases s }
    | some qc =>
      { s with currentPhaseIndex := clampedPhase phases s,
               currentQuestionIndex := min s.currentQuestionIndex (qc - 1) }
  else s

lemma renderClamp_answers (phases : List ℕ) (ts : Bool) (s : AppState) :
    (renderClamp phases ts s).answers = s.answers := by
  unfold renderClamp
  split
  · split <;> rfl
  · rfl

lemma renderClamp_inProgress (phases : List ℕ) (ts : Bool) (s : AppState) :
    (renderClamp phases ts s).inProgress = s.inProgress := by
  unfold renderClamp
  split
  · split <;> rfl
  · rfl

lemma renderClamp_phase (phases : List ℕ) (s : AppState) :
    (renderClamp phases true s).currentPhaseIndex = clampedPhase phases s := by
  unfold renderClamp
  rw [if_pos rfl]
  split <;> rfl

lemma renderClamp_question (phases : List ℕ) (s : AppState) {qc : ℕ}
    (hq : phases[clampedPhase phases s]? = some qc) :
    (renderClamp phases true s).currentQuestionIndex =
      min s.currentQuestionIndex (qc - 1) := by
  unfold renderClamp
  rw [if_pos rfl, hq]

/-- `restoreSession` from app.js, in the case where the store holds a
payload: the indices, answers and progress flag are taken from the payload
and then `renderCurrentQuestion()` runs. -/
def restoreSession (phases : List ℕ) (hasTestSection : Bool) (p : SessionPayload)
    (s : AppState) : AppState :=
  renderClamp phases hasTestSection
    { currentPhaseIndex := p.currentPhaseIndex,
      currentQuestionIndex := p.currentQuestionIndex,
      answers := p.answers,
      inProgress := p.inProgress }

/-- `recordAnswer(phaseIdx, qIdx, answer)` from app.js: store the answer
under the given pair of indices (the timestamp field is not modelled). -/
def recordAnswer (s : AppState) (pi qi : ℕ) (a : Answer) : AppState :=
  { s with answers := fun p q => if p = pi ∧ q = qi then some a else s.answers p q }

/-- `goNext` from app.js: advance within the phase, else to the next phase,
else finalize (which leaves indices and answers unchanged).  Moving
re-renders, which clamps.  In JS, `qi < qc - 1` is false when `qc = 0`
(the comparison is against `-1`), matching natural subtraction here. -/
def goNext (phases : List ℕ) (hasTestSection : Bool) (s : AppState) : AppState :=
  match phases[s.currentPhaseIndex]? with
  | none => s
  | some qc =>
    if s.currentQuestionIndex < qc - 1 then
      renderClamp phases hasTestSection
        { s with currentQuestionIndex := s.currentQuestionIndex + 1 }
    else if s.currentPhaseIndex < phases.length - 1 then
      renderClamp phases hasTestSection
        { s with currentPhaseIndex := s.currentPhaseIndex + 1, currentQuestionIndex := 0 }
    else s

/-- `goPrev` from app.js: step back within the phase, else to the last
question of the previous phase (`Math.max(0, len - 1)`), else show the
intro (state unchanged). -/
def goPrev (phases : List ℕ) (hasTestSection : Bool) (s : AppState) : AppState :=
  if 0 < s.currentQuestionIndex then
    renderClamp phases hasTestSection
      { s with currentQuestionIndex := s.currentQuestionIndex - 1 }
  else if 0 < s.currentPhaseIndex then
    renderClamp phases hasTestSection
      { s with currentPhaseIndex := s.currentPhaseIndex - 1,
               currentQuestionIndex := (phases.getD (s.currentPhaseIndex - 1) 0) - 1 }
  else s

/-- A world is the in-memory app state together with the local store slot
under `STORAGE_KEY`. -/
def World : Type := AppState × Option SessionPayload

/-- The user-triggered operations of the app.js engine.  `record` fires from
an input handler, which exists only when `renderCurrentQuestion` displayed a
question (the clamped position holds an existing question, i.e. the clamped
phase exists and has at least one question); recording auto-saves.
`restore` fires only when the store holds a payload. -/
inductive Step (phases : List ℕ) : World → World → Prop
  | record (w : World) (a : Answer) (qc : ℕ)
      (hq : phases[clampedPhase phases w.1]? = some qc)
      (hpos : 0 < qc) :
      Step phases w
        ((recordAnswer (renderClamp phases true w.1)
            (renderClamp phases true w.1).currentPhaseIndex
            (renderClamp phases true w.1).currentQuestionIndex a),
         some (saveSession (recordAnswer (renderClamp phases true w.1)
            (renderClamp phases true w.1).currentPhaseIndex
            (renderClamp phases true w.1).currentQuestionIndex a)))
  | next (w : World) : Step phases w (goNext phases true w.1, w.2)
  | prev (w : World) : Step phases w (goPrev phases true w.1, w.2)
  | save (w : World) : Step phases w (w.1, some (saveSession w.1))
  | restore (w : World) (p : SessionPayload) (hp : w.2 = some p) :
      Step phases w (restoreSession phases true p w.1, w.2)
  | start (w : World) :
      Step phases w
        ((renderClamp phases true
            { w.1 with currentPhaseIndex := 0, currentQuestionIndex := 0, inProgress := true }),
         some (saveSession (renderClamp phases true
            { w.1 with currentPhaseIndex := 0, currentQuestionIndex := 0, inProgress := true })))
  | clear (w : World) :
      Step phases w (⟨0, 0, fun _ _ => none, false⟩, none)

/-- The initial world: fresh state, empty store. -/
def initWorld : World := (⟨0, 0, fun _ _ => none, false⟩, none)

/-- States reachable through the app.js operations. -/
def Reachable (phases : List ℕ) (w : World) : Prop :=
  Relation.ReflTransGen (Step phases) initWorld w

/-- Every phase/question key present in the answers map indexes an existing
question of the normalized phases array. -/
def validAnswers (phases : List ℕ) (ans : ℕ → ℕ → Option Answer) : Prop :=
  ∀ pi qi, (ans pi qi).isSome → ∃ qc, phases[pi]? = some qc ∧ qi < qc

/-- Invariant carried through the reachability proof: both the live answers
map and any stored payload reference only existing questions. -/
def WorldInv (phases : List ℕ) (w : World) : Prop :=
  validAnswers phases w.1.answers ∧ ∀ p, w.2 = some p → validAnswers phases p.answers

lemma goNext_answers (phases : List ℕ) (ts : Bool) (s : AppState) :
    (goNext phases ts s).answers = s.answers := by
  unfold goNext
  split
  · rfl
  · split
    · exact renderClamp_answers _ _ _
    · split
      · exact renderClamp_answers _ _ _
      · rfl

lemma goPrev_answers (phases : List ℕ) (ts : Bool) (s : AppState) :
    (goPrev phases ts s).answers = s.answers := by
  unfold goPrev
  split
  · exact renderClamp_answers _ _ _
  · split
    · exact renderClamp_answers _ _ _
    · rfl

lemma step_preserves_inv {phases : List ℕ} {w w' : World}
    (hstep : Step phases w w') (hinv : WorldInv phases w) : WorldInv phases w' := by
  obtain ⟨hans, hstore⟩ := hinv
  cases hstep with
  | record a qc hq hpos =>
    have hq' : phases[(renderClamp phases true w.1).currentPhaseIndex]? = some qc := by
      rw [renderClamp_phase]
      exact hq
    have hqi : (renderClamp phases true w.1).currentQuestionIndex < qc := by
      rw [renderClamp_question phases w.1 hq]
      omega
    have hvalid : validAnswers phases
        (recordAnswer (renderClamp phases true w.1)
          (renderClamp phases true w.1).currentPhaseIndex
          (renderClamp phases true w.1).currentQuestionIndex a).answers := by
      intro pi qi hsome
      unfold recordAnswer at hsome
      simp only at hsome
      by_cases hk : pi = (renderClamp phases true w.1).currentPhaseIndex ∧
          qi = (renderClamp phases true w.1).currentQuestionIndex
      · obtain ⟨hk1, hk2⟩ := hk
        subst hk1; subst hk2
        exact ⟨qc, hq', hqi⟩
      · rw [if_neg hk] at hsome
        have := (renderClamp_answers phases true w.1) ▸ hsome
        exact hans pi qi this
    exact ⟨hvalid, fun p hp => by
      simp only [Option.some.injEq] at hp
      subst hp
      exact hvalid⟩
  | next =>
    refine ⟨?_, hstore⟩
    rw [goNext_answers]
    exact hans
  | prev =>
    refine ⟨?_, hstore⟩
    rw [goPrev_answers]
    exact hans
  | save =>
    exact ⟨hans, fun p hp => by
      simp only [Option.some.injEq] at hp
      subst hp
      exact hans⟩
  | restore p hp =>
    refine ⟨?_, hstore⟩
    unfold restoreSession
    rw [renderClamp_answers]
    exact hstore p hp
  | start =>
    have h1 : (renderClamp phases true
        { w.1 with currentPhaseIndex := 0, currentQuestionIndex := 0,
                   inProgress := true }).answers = w.1.answers :=
      renderClamp_answers _ _ _
    refine ⟨by rw [h1]; exact hans, fun p hp => by
      simp only [Option.some.injEq] at hp
      subst hp
      unfold saveSession
      simp only
      rw [h1]
      exact hans⟩
  | clear =>
    exact ⟨fun pi qi h => by simp at h, fun p hp => by simp at hp⟩

lemma reachable_inv {phases : List ℕ} {w : World} (h : Reachable phases w) :
    WorldInv phases w := by
  induction h with
  | refl =>
    exact ⟨fun pi qi h => by simp [initWorld] at h,
           fun p hp => by simp [initWorld] at hp⟩
  | tail hr hs ih => exact step_preserves_inv hs ih

/-- `loadSchema` from app.js, parametrised by the outcome of the
`fetch(SCHEMA_FILE)` call.  The parsed JSON is abstracted to the shape the
loader inspects: `phases` is `some` of the phases array (each phase given by
its question count) when `json.phases` is an array, `none` otherwise. -/
inductive FetchResult where
  | ok (phases : Option (List ℕ))
  | httpError (status : ℕ)
  | netError

/-- The six-phase built-in fallback schema of app.js (`useFallbackSchema`),
normalized: each of the six phases has exactly two questions. -/
def fallbackPhases : List ℕ := [2, 2, 2, 2, 2, 2]

/-- `loadSchema` from app.js: on a successful fetch with a well-shaped
schema (a non-empty `phases` array), normalize it; any failure — network
error, non-ok HTTP status, or malformed shape — falls back to the built-in
schema.  (Normalization maps each phase to its question list, so on the
question-count abstraction it is the identity; its own empty-result safety
check can never fire on a non-empty input.) -/
def loadSchema : FetchResult → List ℕ
  | .ok (some ps) => if ps.isEmpty then fallbackPhases else ps
  | .ok none => fallbackPhases
  | .httpError _ => fallbackPhases
  | .netError => fallbackPhases

lemma renderClamp_false (phases : List ℕ) (s : AppState) :
    renderClamp phases false s = s := by
  unfold renderClamp
  simp

lemma valid_after_renderClamp (phases : List ℕ) (ts : Bool) (s : AppState) {qc : ℕ}
    (hq : phases[s.currentPhaseIndex]? = some qc)
    (hqi : s.currentQuestionIndex < qc) :
    ∃ qc', phases[(renderClamp phases ts s).currentPhaseIndex]? = some qc' ∧
      (renderClamp phases ts s).currentQuestionIndex < qc' := by
  cases ts with
  | false => rw [renderClamp_false]; exact ⟨qc, hq, hqi⟩
  | true =>
    have hlen : s.currentPhaseIndex < phases.length := (List.getElem?_eq_some_iff.mp hq).1
    have hcp : clampedPhase phases s = s.currentPhaseIndex := by
      unfold clampedPhase; omega
    have hq' : phases[clampedPhase phases s]? = some qc := by rw [hcp]; exact hq
    refine ⟨qc, ?_, ?_⟩
    · rw [renderClamp_phase, hcp]; exact hq
    · rw [renderClamp_question phases s hq']
      omega

lemma goNext_valid (phases : List ℕ) (ts : Bool) (s : AppState) {qc : ℕ}
    (hall : ∀ q ∈ phases, 0 < q)
    (hq : phases[s.currentPhaseIndex]? = some qc)
    (hqi : s.currentQuestionIndex < qc) :
    ∃ qc', phases[(goNext phases ts s).currentPhaseIndex]? = some qc' ∧
      (goNext phases ts s).currentQuestionIndex < qc' := by
  have hlen : s.currentPhaseIndex < phases.length := (List.getElem?_eq_some_iff.mp hq).1
  unfold goNext
  rw [hq]
  dsimp only
  by_cases h1 : s.currentQuestionIndex < qc - 1
  · rw [if_pos h1]
    exact valid_after_renderClamp phases ts _ hq
      (by show s.currentQuestionIndex + 1 < qc; omega)
  · rw [if_neg h1]
    by_cases h2 : s.currentPhaseIndex < phases.length - 1
    · rw [if_pos h2]
      have hlt : s.currentPhaseIndex + 1 < phases.length := by omega
      exact valid_after_renderClamp phases ts _ (List.getElem?_eq_getElem hlt)
        (hall _ (List.getElem_mem hlt))
    · rw [if_neg h2]
      exact ⟨qc, hq, hqi⟩

lemma goPrev_valid (phases : List ℕ) (ts : Bool) (s : AppState) {qc : ℕ}
    (hall : ∀ q ∈ phases, 0 < q)
    (hq : phases[s.currentPhaseIndex]? = some qc)
    (hqi : s.currentQuestionIndex < qc) :
    ∃ qc', phases[(goPrev phases ts s).currentPhaseIndex]? = some qc' ∧
      (goPrev phases ts s).currentQuestionIndex < qc' := by
  have hlen : s.currentPhaseIndex < phases.length := (List.getElem?_eq_some_iff.mp hq).1
  unfold goPrev
  by_cases h1 : 0 < s.currentQuestionIndex
  · rw [if_pos h1]
    exact valid_after_renderClamp phases ts _ hq
      (by show s.currentQuestionIndex - 1 < qc; omega)
  · rw [if_neg h1]
    by_cases h2 : 0 < s.currentPhaseIndex
    · rw [if_pos h2]
      have hlt : s.currentPhaseIndex - 1 < phases.length := by omega
      have hpos := hall _ (List.getElem_mem hlt)
      refine valid_after_renderClamp phases ts _ (List.getElem?_eq_getElem hlt) ?_
      show phases.getD (s.currentPhaseIndex - 1) 0 - 1 < phases[s.currentPhaseIndex - 1]
      rw [List.getD_eq_getElem?_getD, List.getElem?_eq_getElem hlt]
      show phases[s.currentPhaseIndex - 1] - 1 < phases[s.currentPhaseIndex - 1]
      omega
    · rw [if_neg h2]
      exact ⟨qc, hq, hqi⟩

lemma restore_after_save (phases : List ℕ) (ts : Bool) (s t : AppState) {qc : ℕ}
    (hq : phases[s.currentPhaseIndex]? = some qc)
    (hqi : s.currentQuestionIndex < qc) :
    restoreSession phases ts (saveSession s) t =
      ⟨s.currentPhaseIndex, s.currentQuestionIndex, s.answers, s.inProgress⟩ := by
  unfold restoreSession saveSession renderClamp
  cases ts with
  | false => simp
  | true =>
    rw [if_pos rfl]
    have hlen : s.currentPhaseIndex < phases.length := (List.getElem?_eq_some_iff.mp hq).1
    have hcp : clampedPhase phases
        (⟨s.currentPhaseIndex, s.currentQuestionIndex, s.answers, s.inProgress⟩ : AppState)
        = s.currentPhaseIndex := by
      unfold clampedPhase
      simp only
      omega
    rw [hcp, hq]
    dsimp only
    congr 1
    omega

end App

namespace Lucid

/-- A response value in the Lucid Flow variant (`part_002`): sliders store
numbers, multiple-choice and text answers store strings. -/
inductive Resp where
  | num (q : ℚ)
  | str (s : String)

/-- The `responses` object: an insertion-ordered association list from
question id to value (JS object keys are unique; all claims below are
insensitive to duplicates). -/
def Responses : Type := List (String × Resp)

/-- Association-list lookup, mirroring JS property access. -/
def lookupResp : Responses → String → Option Resp
  | [], _ => none
  | (k, v) :: rest, key => if k = key then some v else lookupResp rest key

/-- JS `Number(v)` on a response value, abstracted over string-to-number
parsing: `toNum s` is `some q` when JS parses the string `s` as the finite
number `q` and `none` when `Number(s)` is `NaN`. -/
def jsNumber (toNum : String → Option ℚ) : Resp → Option ℚ
  | .num q => some q
  | .str s => toNum s

/-- `computeComposite` from the Lucid Flow variant: sum the numeric answers
and the trimmed lengths of the non-numeric string answers, combine
(`numericSum * 10 + min(300, textLen / 1.5)`), round, and clamp into
`[0, 700]` (`maxTotalPoints`). -/
def computeComposite (toNum : String → Option ℚ) (responses : Responses) : ℤ :=
  let totals := responses.foldl (fun acc kv =>
    match jsNumber toNum kv.2 with
    | some n => (acc.1 + n, acc.2)
    | none =>
      match kv.2 with
      | .str s => (acc.1, acc.2 + ((s.trim.length : ℚ)))
      | .num _ => acc) ((0 : ℚ), (0 : ℚ))
  let textScoreEquivalent := min 300 (totals.2 / 1.5)
  let base := totals.1 * 10 + textScoreEquivalent
  max 0 (min 700 (jsRound base))

lemma computeComposite_bounds (toNum : String → Option ℚ) (responses : Responses) :
    0 ≤ computeComposite toNum responses ∧ computeComposite toNum responses ≤ 700 := by
  unfold computeComposite
  exact ⟨le_max_left _ _, max_le (by norm_num) (min_le_left _ _)⟩

/-- `num(responses[k]) || 0` as used by `matchArchetype`: a missing or
non-numeric response counts as `0`. -/
def numOf (toNum : String → Option ℚ) (responses : Responses) (k : String) : ℚ :=
  match lookupResp responses k with
  | none => 0
  | some v => (jsNumber toNum v).getD 0

/-- The Empathic Inventor condition on `p5_q1`:
`responses["p5_q1"] && String(responses["p5_q1"]).toLowerCase().includes("creative")`.
A missing value or a falsy value (empty string, zero) short-circuits to
false, and `String(number)` never contains `"creative"`. -/
def p5q1Creative (responses : Responses) : Bool :=
  match lookupResp responses "p5_q1" with
  | some (.str s) => if s = "" then false else strIncludes s.toLower "creative"
  | some (.num _) => false
  | none => false

/-- `matchArchetype` from the Lucid Flow variant: first rule whose condition
holds, Balanced Strategist as the catch-all (the `totalScore` argument is
unused by the source function and omitted). -/
def matchArchetype (toNum : String → Option ℚ) (responses : Responses) : String :=
  if 6 < numOf toNum responses "p4_q1" ∧ 6 < numOf toNum responses "p2_q2" then
    "Reflective Architect"
  else if 6 < numOf toNum responses "p3_q2" ∧ p5q1Creative responses then
    "Empathic Inventor"
  else if 7 < numOf toNum responses "p2_q2" ∧ 6 < numOf toNum responses "p5_q2" then
    "Visionary Synthesist"
  else if 6 < numOf toNum responses "p2_q2" ∧ numOf toNum responses "p4_q1" < 5 then
    "Grounded Operator"
  else if 7 < numOf toNum responses "p3_q2" ∧ numOf toNum responses "p2_q2" < 5 then
    "Dreaming Idealist"
  else "Balanced Strategist"

/-- `loadSchema` from the Lucid Flow variant, parametrised by the fetch
outcome: `ok (some ps)` models a parsed JSON whose `test.phases` is an
array (phases abstracted to question counts), `ok none` a parsed JSON
missing that structure (which throws and is caught). -/
inductive FetchResult where
  | ok (testPhases : Option (List ℕ))
  | httpError (status : ℕ)
  | netError

/-- The embedded fallback schema of the Lucid Flow variant
(`embeddedSchema()`): intro, frequency selection and orientation phases
carry no questions, phases 1–4 carry three questions each, phase 5 two,
and the results phase none. -/
def embeddedPhases : List ℕ := [0, 0, 0, 3, 3, 3, 3, 2, 0]

/-- `loadSchema` from the Lucid Flow variant: any failure (network error,
non-ok status via the thrown `HTTP` error, or missing `test.phases`
structure) falls back to the embedded schema. -/
def loadSchema : FetchResult → List ℕ
  | .ok (some ps) => ps
  | .ok none => embeddedPhases
  | .httpError _ => embeddedPhases
  | .netError => embeddedPhases

end Lucid

namespace V000

/-- The fetch-and-parse outcome for one path tried by `loadSchema` in
`part_000`: `ok` carries the parsed schema (its `questions` array,
abstracted to per-question values); `fail` covers a network error, a
non-ok HTTP status (`throw new Error('HTTP …')`) and a JSON parse error —
all caught by the per-path `catch`. -/
inductive Fetch where
  | ok (questions : List ℚ)
  | fail

/-- `loadSchema` from `part_000`: try the local path, then the absolute
path; if both fail, throw `"Could not load schema — check file name and
path."` — there is no built-in fallback schema in this variant, and the
caller renders the error message instead of starting the test. -/
def loadSchema : Fetch → Fetch → Except String (List ℚ)
  | .ok d, _ => .ok d
  | .fail, .ok d => .ok d
  | .fail, .fail => .error "Could not load schema — check file name and path."

end V000

namespace V001

/-- The fetch outcome for `loadSchema` in `part_001`: `ok` carries the
parsed JSON's `questions` field (`none` when it is missing or not an
array), `fail` covers a network error, a non-ok status and a parse error. -/
inductive Fetch where
  | ok (questions : Option (List ℚ))
  | fail

/-- `loadSchema` from `part_001`: returns whether loading succeeded together
with the question list.  Every failure — including the "Invalid schema
format" validation throw — is caught, alerts the user and returns `false`
with no questions loaded; there is no built-in fallback schema. -/
def loadSchema : Fetch → Bool × List ℚ
  | .ok (some qs) => (true, qs)
  | .ok none => (false, [])
  | .fail => (false, [])

end V001

namespace SJS

/-- The five self-rating metrics of script.js (`Depth`, `Originality`,
`Clarity`, `Self_Awareness`, `Adaptability`). -/
structure Ratings where
  depth : ℚ
  originality : ℚ
  clarity : ℚ
  selfAwareness : ℚ
  adaptability : ℚ
deriving DecidableEq

/-- `Number(x.toFixed(2))`: round to two decimal places. -/
def toFixed2 (q : ℚ) : ℚ := (jsRound (q * 100) : ℚ) / 100

/-- The sentence count of `submitCurrent`:
`respText.split(/[.!?]+/).filter(s => s.trim()).length`.  Splitting on each
terminator character instead of on runs only introduces extra empty pieces,
which the whitespace filter removes in both readings, so the counts agree. -/
def sentencesOf (s : String) : ℕ :=
  ((s.split (fun c => c = '.' ∨ c = '!' ∨ c = '?')).filter
    (fun t => !(t.trim == ""))).length

/-- The heuristic boost of `submitCurrent`: +0.3 for more than two
sentences, +0.4 for a response longer than 200 characters. -/
def boostOf (respText : String) : ℚ :=
  (if 2 < sentencesOf respText then 0.3 else 0) +
    (if 200 < respText.length then 0.4 else 0)

/-- One combined rating:
`Number(Math.max(1, Math.min(5, selfRating + boost)).toFixed(2))`. -/
def combineOne (respText : String) (r : ℚ) : ℚ :=
  toFixed2 (max 1 (min 5 (r + boostOf respText)))

/-- The `combined` object built by `submitCurrent` over the five metrics. -/
def combinedRatings (respText : String) (r : Ratings) : Ratings :=
  ⟨combineOne respText r.depth, combineOne respText r.originality,
   combineOne respText r.clarity, combineOne respText r.selfAwareness,
   combineOne respText r.adaptability⟩

lemma toFixed2_mem {q : ℚ} (h1 : 1 ≤ q) (h2 : q ≤ 5) :
    1 ≤ toFixed2 q ∧ toFixed2 q ≤ 5 := by
  unfold toFixed2
  have l1 : (100 : ℤ) ≤ jsRound (q * 100) := le_jsRound (by push_cast; linarith)
  have l2 : jsRound (q * 100) ≤ (500 : ℤ) := jsRound_le (by push_cast; linarith)
  have l1' : (100 : ℚ) ≤ (jsRound (q * 100) : ℚ) := by exact_mod_cast l1
  have l2' : ((jsRound (q * 100) : ℚ)) ≤ 500 := by exact_mod_cast l2
  constructor <;> linarith

lemma combineOne_mem (respText : String) (r : ℚ) :
    1 ≤ combineOne respText r ∧ combineOne respText r ≤ 5 := by
  unfold combineOne
  exact toFixed2_mem (le_max_left _ _) (max_le (by norm_num) (min_le_left _ _))

/-- Componentwise membership of the five ratings in the `[1, 5]` scale. -/
def RatingsBounded (r : Ratings) : Prop :=
  (1 ≤ r.depth ∧ r.depth ≤ 5) ∧ (1 ≤ r.originality ∧ r.originality ≤ 5) ∧
  (1 ≤ r.clarity ∧ r.clarity ≤ 5) ∧ (1 ≤ r.selfAwareness ∧ r.selfAwareness ≤ 5) ∧
  (1 ≤ r.adaptability ∧ r.adaptability ≤ 5)

lemma combinedRatings_bounded (respText : String) (r : Ratings) :
    RatingsBounded (combinedRatings respText r) :=
  ⟨combineOne_mem _ _, combineOne_mem _ _, combineOne_mem _ _,
   combineOne_mem _ _, combineOne_mem _ _⟩

/-- A question of the script.js question flow. -/
structure SQuestion where
  qid : String
  domain : String
  prompt : String
deriving DecidableEq

/-- What the user provides when submitting one question: the raw textarea
content and the five self-rating slider values. -/
structure SubmitInput where
  response : String
  ratings : Ratings

/-- A transcript record, reduced to the fields the report generator reads:
the question's domain and the combined ratings (`null` for the
micro-reflection record). -/
structure TItem where
  domain : String
  combined_ratings : Option Ratings

/-- The mutable flow state of script.js: the (growable) question list, the
current index, how many questions have been displayed, and the transcript. -/
structure FlowState where
  questionList : List SQuestion
  currentIndex : ℕ
  rendered : ℕ
  transcript : List TItem

/-- `questionList.splice(n, 0, a)`. -/
def spliceInsert (l : List SQuestion) (n : ℕ) (a : SQuestion) : List SQuestion :=
  l.take n ++ a :: l.drop n

/-- The clarifying prompt inserted by the adaptive branching of
`submitCurrent`. -/
def clarifyQuestion (q : SQuestion) : SQuestion :=
  ⟨q.qid ++ "_clarify", q.domain,
   "I noticed strong novelty. Could you give a concrete example that illustrates your idea?"⟩

/-- `submitCurrent` from script.js followed by its `renderQuestion()` call:
record the trimmed response with combined ratings, advance the index,
splice in a clarifying question when combined `Originality ≥ 4` and
`Clarity ≤ 2`, and display the next question when one remains (counted in
`rendered`; `renderQuestion` at an exhausted index moves to the
micro-reflection instead). -/
def submitCurrent (st : FlowState) (input : SubmitInput) : FlowState :=
  match st.questionList[st.currentIndex]? with
  | none => st
  | some q =>
    let respText := input.response.trim
    let combined := combinedRatings respText input.ratings
    let transcript := st.transcript ++ [⟨q.domain, some combined⟩]
    let idx := st.currentIndex + 1
    let qs :=
      if 4 ≤ combined.originality ∧ combined.clarity ≤ 2 then
        spliceInsert st.questionList idx (clarifyQuestion q)
      else st.questionList
    { questionList := qs, currentIndex := idx,
      rendered := st.rendered + (if idx < qs.length then 1 else 0),
      transcript := transcript }

/-- `startQuestionFlow` from script.js: the prepared question list is the
selected tier's bank, truncated to the mode's maximum question count
(`questionList.slice(0, qcountRange[1])` when longer), and the first
question is rendered when the list is non-empty. -/
def startQuestionFlow (bank : List SQuestion) (qcountMax : ℕ) : FlowState :=
  let questionList := if qcountMax < bank.length then bank.take qcountMax else bank
  { questionList := questionList, currentIndex := 0,
    rendered := if 0 < questionList.length then 1 else 0, transcript := [] }

/-- A complete interactive run: start the flow, then submit the given
inputs in order. -/
def runFlow (bank : List SQuestion) (qcountMax : ℕ) (inputs : List SubmitInput) :
    FlowState :=
  inputs.foldl submitCurrent (startQuestionFlow bank qcountMax)

/-- The adaptive-branching condition of `submitCurrent`, as a predicate on
the submitted input. -/
def triggersClarify (input : SubmitInput) : Prop :=
  4 ≤ (combinedRatings input.response.trim input.ratings).originality ∧
    (combinedRatings input.response.trim input.ratings).clarity ≤ 2

lemma submitCurrent_of_none (st : FlowState) (input : SubmitInput)
    (h : st.questionList[st.currentIndex]? = none) :
    submitCurrent st input = st := by
  unfold submitCurrent
  rw [h]

lemma submitCurrent_of_some (st : FlowState) (input : SubmitInput) {q : SQuestion}
    (h : st.questionList[st.currentIndex]? = some q)
    (hno : ¬ triggersClarify input) :
    submitCurrent st input =
      { questionList := st.questionList,
        currentIndex := st.currentIndex + 1,
        rendered := st.rendered +
          (if st.currentIndex + 1 < st.questionList.length then 1 else 0),
        transcript := st.transcript ++
          [⟨q.domain, some (combinedRatings input.response.trim input.ratings)⟩] } := by
  unfold submitCurrent
  rw [h]
  simp only
  have hno' : ¬ (4 ≤ (combinedRatings input.response.trim input.ratings).originality ∧
      (combinedRatings input.response.trim input.ratings).clarity ≤ 2) := hno
  rw [if_neg hno']

lemma flow_no_insert_inv (qs0 : List SQuestion) :
    ∀ (inputs : List SubmitInput) (st : FlowState),
      (∀ i ∈ inputs, ¬ triggersClarify i) →
      st.questionList = qs0 →
      st.rendered = min (st.currentIndex + 1) qs0.length →
      (inputs.foldl submitCurrent st).questionList = qs0 ∧
        (inputs.foldl submitCurrent st).rendered =
          min ((inputs.foldl submitCurrent st).currentIndex + 1) qs0.length := by
  intro inputs
  induction inputs with
  | nil => exact fun st hno h1 h2 => ⟨h1, h2⟩
  | cons i rest ih =>
    intro st hno h1 h2
    simp only [List.foldl_cons]
    have hni : ¬ triggersClarify i := hno i (List.mem_cons_self i rest)
    have hrest : ∀ j ∈ rest, ¬ triggersClarify j :=
      fun j hj => hno j (List.mem_cons_of_mem _ hj)
    rcases hget : st.questionList[st.currentIndex]? with _ | q
    · rw [submitCurrent_of_none st i hget]
      exact ih st hrest h1 h2
    · rw [submitCurrent_of_some st i hget hni]
      have hlt : st.currentIndex < st.questionList.length :=
        List.getElem?_eq_some_iff.mp hget |>.1
      apply ih
      · exact hrest
      · exact h1
      · simp only
        rw [h1] at hlt ⊢
        by_cases hc : st.currentIndex + 1 < qs0.length
        · rw [if_pos hc]; omega
        · rw [if_neg hc]; omega

/-- A completed run with no adaptive insertion renders exactly one question
per entry of the prepared question list. -/
lemma runFlow_rendered (bank : List SQuestion) (qcountMax : ℕ)
    (inputs : List SubmitInput)
    (hno : ∀ i ∈ inputs, ¬ triggersClarify i)
    (hdone : (runFlow bank qcountMax inputs).questionList.length ≤
      (runFlow bank qcountMax inputs).currentIndex) :
    (runFlow bank qcountMax inputs).rendered =
      (startQuestionFlow bank qcountMax).questionList.length := by
  have h := flow_no_insert_inv (startQuestionFlow bank qcountMax).questionList inputs
    (startQuestionFlow bank qcountMax) hno rfl ?_
  · obtain ⟨h1, h2⟩ := h
    unfold runFlow at *
    rw [h1] at hdone
    omega
  · unfold startQuestionFlow
    simp only
    rcases Nat.eq_zero_or_pos (if qcountMax < bank.length then bank.take qcountMax
      else bank).length with h0 | hpos
    · rw [h0]; rw [if_neg (by omega)]; omega
    · rw [if_pos hpos]; omega

lemma submitCurrent_transcript (st : FlowState) (input : SubmitInput) :
    (submitCurrent st input).transcript = st.transcript ∨
    ∃ d, (submitCurrent st input).transcript = st.transcript ++
      [⟨d, some (combinedRatings input.response.trim input.ratings)⟩] := by
  unfold submitCurrent
  rcases h : st.questionList[st.currentIndex]? with _ | q
  · left; rfl
  · right
    exact ⟨q.domain, rfl⟩

/-- Every record the interactive flow ever appends to the transcript carries
combined ratings on the 1–5 scale. -/
lemma runFlow_transcript_bounded (bank : List SQuestion) (qcountMax : ℕ)
    (inputs : List SubmitInput) :
    ∀ it ∈ (runFlow bank qcountMax inputs).transcript, ∀ r,
      it.combined_ratings = some r → RatingsBounded r := by
  unfold runFlow
  suffices h : ∀ (l : List SubmitInput) (st : FlowState),
      (∀ it ∈ st.transcript, ∀ r, it.combined_ratings = some r → RatingsBounded r) →
      ∀ it ∈ (l.foldl submitCurrent st).transcript, ∀ r,
        it.combined_ratings = some r → RatingsBounded r by
    exact h inputs (startQuestionFlow bank qcountMax)
      (fun it hit => absurd hit (List.not_mem_nil it))
  intro l
  induction l with
  | nil => exact fun st hst => hst
  | cons i rest ih =>
    intro st hst
    simp only [List.foldl_cons]
    apply ih
    intro it hit r hr
    rcases submitCurrent_transcript st i with he | ⟨d, he⟩
    · rw [he] at hit
      exact hst it hit r hr
    · rw [he] at hit
      rcases List.mem_append.mp hit with h1 | h2
      · exact hst it h1 r hr
      · rcases List.mem_singleton.mp h2 with rfl
        have hr' : some (combinedRatings i.response.trim i.ratings) = some r := hr
        rcases Option.some.injEq _ _ ▸ hr' with rfl
        exact combinedRatings_bounded _ _

/-- Componentwise sum of two ratings records
(`domains[dom][k] += item.combined_ratings[k]`). -/
def addRatings (a b : Ratings) : Ratings :=
  ⟨a.depth + b.depth, a.originality + b.originality, a.clarity + b.clarity,
   a.selfAwareness + b.selfAwareness, a.adaptability + b.adaptability⟩

/-- One step of the domain-aggregation loop of the report generator
(`btnGenerate.onclick`): add the item's combined ratings into its domain
bucket and count it, creating the bucket on first use.  Buckets are an
insertion-ordered association list `(domain, (sums, count))`. -/
def bump : List (String × Ratings × ℕ) → String → Ratings → List (String × Ratings × ℕ)
  | [], dom, r => [(dom, r, 1)]
  | e :: rest, dom, r =>
    if e.1 = dom then (e.1, addRatings e.2.1 r, e.2.2 + 1) :: rest
    else e :: bump rest dom r

/-- The `domains` / `counts` accumulation over the transcript; items without
combined ratings (the micro-reflection) are skipped. -/
def accumulate (transcript : List TItem) : List (String × Ratings × ℕ) :=
  transcript.foldl (fun acc it =>
    match it.combined_ratings with
    | none => acc
    | some r => bump acc it.domain r) []

/-- A per-domain metric weighting from
`schema.scoring_logic.weighting_by_domain`. -/
structure Weights where
  depth : ℚ
  originality : ℚ
  clarity : ℚ
  selfAwareness : ℚ
  adaptability : ℚ

/-- The fallback weighting used when the schema provides none for a domain:
`{Depth:0.25, Originality:0.25, Clarity:0.25, Self_Awareness:0.25, Adaptability:0}`. -/
def defaultWeights : Weights := ⟨0.25, 0.25, 0.25, 0.25, 0⟩

/-- Association-list lookup on the aggregation buckets. -/
def lookupAcc : List (String × Ratings × ℕ) → String → Option (Ratings × ℕ)
  | [], _ => none
  | e :: rest, dom => if e.1 = dom then some e.2 else lookupAcc rest dom

/-- A sane weighting: non-negative metric weights with positive total.  The
built-in `defaultWeights` satisfies this. -/
def WeightsOK (w : Weights) : Prop :=
  0 ≤ w.depth ∧ 0 ≤ w.originality ∧ 0 ≤ w.clarity ∧ 0 ≤ w.selfAwareness ∧
    0 ≤ w.adaptability ∧
    0 < w.depth + w.originality + w.clarity + w.selfAwareness + w.adaptability

/-- The per-domain score of the report generator: `null` when the domain has
no data, otherwise the metric averages are combined by the schema weighting
(total-weight normalised; zero total weight yields `norm = 0`) and mapped
from the 1–5 scale to 0–100 by `Math.round(((norm - 1) / 4) * 100)`. -/
def domainScore (wbd : String → Option Weights)
    (acc : List (String × Ratings × ℕ)) (dom : String) : Option ℤ :=
  match lookupAcc acc dom with
  | none => none
  | some (sums, cnt) =>
    if cnt = 0 then none
    else
      let w := (wbd dom).getD defaultWeights
      let weightedSum := (sums.depth / (cnt : ℚ)) * w.depth +
        (sums.originality / (cnt : ℚ)) * w.originality +
        (sums.clarity / (cnt : ℚ)) * w.clarity +
        (sums.selfAwareness / (cnt : ℚ)) * w.selfAwareness +
        (sums.adaptability / (cnt : ℚ)) * w.adaptability
      let totalW := w.depth + w.originality + w.clarity + w.selfAwareness + w.adaptability
      let norm := if 0 < totalW then weightedSum / totalW else 0
      some (jsRound ((norm - 1) / 4 * 100))

/-- The MCQ of the report generator: the mean of the available (non-null)
domain scores, scaled by the tier factor and clamped into `[0, 100]` before
rounding. -/
def computeMCQ (schemaDomains : List String) (wbd : String → Option Weights)
    (tierFactor : ℚ) (transcript : List TItem) : ℤ :=
  let acc := accumulate transcript
  let available := schemaDomains.filterMap (domainScore wbd acc)
  let meanDomain : ℚ :=
    if available.length = 0 then 0 else ((available.sum : ℤ) : ℚ) / (available.length : ℚ)
  jsRound (max 0 (min 100 (meanDomain * tierFactor)))

lemma computeMCQ_bounds (schemaDomains : List String) (wbd : String → Option Weights)
    (tierFactor : ℚ) (transcript : List TItem) :
    0 ≤ computeMCQ schemaDomains wbd tierFactor transcript ∧
      computeMCQ schemaDomains wbd tierFactor transcript ≤ 100 := by
  unfold computeMCQ
  constructor
  · apply le_jsRound
    push_cast
    exact le_max_left _ _
  · apply jsRound_le
    push_cast
    exact max_le (by norm_num) (min_le_left _ _)

/-- Bucket invariant: each metric sum of a bucket of `cnt` items lies
between `cnt` and `5 * cnt`. -/
def SumsBounded (sums : Ratings) (cnt : ℕ) : Prop :=
  ((cnt : ℚ) ≤ sums.depth ∧ sums.depth ≤ 5 * cnt) ∧
  ((cnt : ℚ) ≤ sums.originality ∧ sums.originality ≤ 5 * cnt) ∧
  ((cnt : ℚ) ≤ sums.clarity ∧ sums.clarity ≤ 5 * cnt) ∧
  ((cnt : ℚ) ≤ sums.selfAwareness ∧ sums.selfAwareness ≤ 5 * cnt) ∧
  ((cnt : ℚ) ≤ sums.adaptability ∧ sums.adaptability ≤ 5 * cnt)

lemma bump_bounded {acc : List (String × Ratings × ℕ)} {dom : String} {r : Ratings}
    (hacc : ∀ e ∈ acc, SumsBounded e.2.1 e.2.2) (hr : RatingsBounded r) :
    ∀ e ∈ bump acc dom r, SumsBounded e.2.1 e.2.2 := by
  induction acc with
  | nil =>
    intro e he
    unfold bump at he
    simp only [List.mem_singleton] at he
    subst he
    obtain ⟨h1, h2, h3, h4, h5⟩ := hr
    refine ⟨⟨?_, ?_⟩, ⟨?_, ?_⟩, ⟨?_, ?_⟩, ⟨?_, ?_⟩, ⟨?_, ?_⟩⟩ <;> push_cast <;> linarith
  | cons x rest ih =>
    intro e he
    unfold bump at he
    by_cases hx : x.1 = dom
    · rw [if_pos hx] at he
      rcases List.mem_cons.mp he with he1 | he2
      · subst he1
        have hxb := hacc x (List.mem_cons_self x rest)
        obtain ⟨⟨a1, a2⟩, ⟨b1, b2⟩, ⟨c1, c2⟩, ⟨d1, d2⟩, ⟨e1, e2⟩⟩ := hxb
        obtain ⟨⟨ra1, ra2⟩, ⟨rb1, rb2⟩, ⟨rc1, rc2⟩, ⟨rd1, rd2⟩, ⟨re1, re2⟩⟩ := hr
        refine ⟨⟨?_, ?_⟩, ⟨?_, ?_⟩, ⟨?_, ?_⟩, ⟨?_, ?_⟩, ⟨?_, ?_⟩⟩ <;>
          unfold addRatings <;> simp only <;> push_cast <;> linarith
      · exact hacc e (List.mem_cons_of_mem _ he2)
    · rw [if_neg hx] at he
      rcases List.mem_cons.mp he with he1 | he2
      · subst he1
        exact hacc e (List.mem_cons_self _ _)
      · exact ih (fun e' he' => hacc e' (List.mem_cons_of_mem _ he')) e he2

lemma accumulate_bounded (transcript : List TItem)
    (ht : ∀ it ∈ transcript, ∀ r, it.combined_ratings = some r → RatingsBounded r) :
    ∀ e ∈ accumulate transcript, SumsBounded e.2.1 e.2.2 := by
  unfold accumulate
  suffices h : ∀ (l : List TItem) (acc : List (String × Ratings × ℕ)),
      (∀ it ∈ l, ∀ r, it.combined_ratings = some r → RatingsBounded r) →
      (∀ e ∈ acc, SumsBounded e.2.1 e.2.2) →
      ∀ e ∈ l.foldl (fun acc it =>
        match it.combined_ratings with
        | none => acc
        | some r => bump acc it.domain r) acc, SumsBounded e.2.1 e.2.2 by
    exact h transcript [] ht (fun e he => absurd he (List.not_mem_nil e))
  intro l
  induction l with
  | nil => exact fun acc hl hacc e he => hacc e he
  | cons it rest ih =>
    intro acc hl hacc e he
    simp only [List.foldl_cons] at he
    rcases hcr : it.combined_ratings with _ | r
    · rw [hcr] at he
      exact ih acc (fun j hj => hl j (List.mem_cons_of_mem _ hj)) hacc e he
    · rw [hcr] at he
      have hrb : RatingsBounded r := hl it (List.mem_cons_self _ _) r hcr
      exact ih (bump acc it.domain r) (fun j hj => hl j (List.mem_cons_of_mem _ hj))
        (bump_bounded hacc hrb) e he

lemma lookupAcc_mem {acc : List (String × Ratings × ℕ)} {dom : String}
    {x : Ratings × ℕ} (h : lookupAcc acc dom = some x) : (dom, x) ∈ acc := by
  induction acc with
  | nil => cases h
  | cons e rest ih =>
    unfold lookupAcc at h
    by_cases he : e.1 = dom
    · rw [if_pos he] at h
      simp only [Option.some.injEq] at h
      subst h
      rw [← he, Prod.mk.eta]
      exact List.mem_cons_self _ _
    · rw [if_neg he] at h
      exact List.mem_cons_of_mem _ (ih h)

lemma domainScore_bounds {wbd : String → Option Weights} {transcript : List TItem}
    {dom : String} {x : ℤ}
    (hw : ∀ d, WeightsOK ((wbd d).getD defaultWeights))
    (ht : ∀ it ∈ transcript, ∀ r, it.combined_ratings = some r → RatingsBounded r)
    (hx : domainScore wbd (accumulate transcript) dom = some x) :
    0 ≤ x ∧ x ≤ 100 := by
  unfold domainScore at hx
  rcases hlk : lookupAcc (accumulate transcript) dom with _ | sc
  · rw [hlk] at hx; cases hx
  · rw [hlk] at hx
    obtain ⟨sums, cnt⟩ := sc
    dsimp only at hx
    by_cases hc : cnt = 0
    · rw [if_pos hc] at hx; cases hx
    · rw [if_neg hc] at hx
      simp only [Option.some.injEq] at hx
      have hcnt : (0 : ℚ) < (cnt : ℚ) := by
        have := Nat.pos_of_ne_zero hc
        exact_mod_cast this
      have hb := accumulate_bounded transcript ht _ (lookupAcc_mem hlk)
      obtain ⟨⟨a1, a2⟩, ⟨b1, b2⟩, ⟨c1, c2⟩, ⟨d1, d2⟩, ⟨e1, e2⟩⟩ := hb
      obtain ⟨w1, w2, w3, w4, w5, wpos⟩ := hw dom
      set w := (wbd dom).getD defaultWeights
      have avg : ∀ sv : ℚ, (cnt : ℚ) ≤ sv → sv ≤ 5 * cnt →
          1 ≤ sv / (cnt : ℚ) ∧ sv / (cnt : ℚ) ≤ 5 := by
        intro sv hs1 hs2
        constructor
        · rw [le_div_iff₀ hcnt]; linarith
        · rw [div_le_iff₀ hcnt]; linarith
      obtain ⟨A1, A2⟩ := avg _ a1 a2
      obtain ⟨B1, B2⟩ := avg _ b1 b2
      obtain ⟨C1, C2⟩ := avg _ c1 c2
      obtain ⟨D1, D2⟩ := avg _ d1 d2
      obtain ⟨E1, E2⟩ := avg _ e1 e2
      rw [if_pos wpos] at hx
      set W := w.depth + w.originality + w.clarity + w.selfAwareness + w.adaptability with hW
      set S := (sums.depth / (cnt : ℚ)) * w.depth +
        (sums.originality / (cnt : ℚ)) * w.originality +
        (sums.clarity / (cnt : ℚ)) * w.clarity +
        (sums.selfAwareness / (cnt : ℚ)) * w.selfAwareness +
        (sums.adaptability / (cnt : ℚ)) * w.adaptability with hS
      have lo : W ≤ S := by
        have m1 : 1 * w.depth ≤ (sums.depth / (cnt : ℚ)) * w.depth :=
          mul_le_mul_of_nonneg_right A1 w1
        have m2 : 1 * w.originality ≤ (sums.originality / (cnt : ℚ)) * w.originality :=
          mul_le_mul_of_nonneg_right B1 w2
        have m3 : 1 * w.clarity ≤ (sums.clarity / (cnt : ℚ)) * w.clarity :=
          mul_le_mul_of_nonneg_right C1 w3
        have m4 : 1 * w.selfAwareness ≤ (sums.selfAwareness / (cnt : ℚ)) * w.selfAwareness :=
          mul_le_mul_of_nonneg_right D1 w4
        have m5 : 1 * w.adaptability ≤ (sums.adaptability / (cnt : ℚ)) * w.adaptability :=
          mul_le_mul_of_nonneg_right E1 w5
        rw [hS, hW]; linarith
      have hi : S ≤ 5 * W := by
        have m1 : (sums.depth / (cnt : ℚ)) * w.depth ≤ 5 * w.depth :=
          mul_le_mul_of_nonneg_right A2 w1
        have m2 : (sums.originality / (cnt : ℚ)) * w.originality ≤ 5 * w.originality :=
          mul_le_mul_of_nonneg_right B2 w2
        have m3 : (sums.clarity / (cnt : ℚ)) * w.clarity ≤ 5 * w.clarity :=
          mul_le_mul_of_nonneg_right C2 w3
        have m4 : (sums.selfAwareness / (cnt : ℚ)) * w.selfAwareness ≤ 5 * w.selfAwareness :=
          mul_le_mul_of_nonneg_right D2 w4
        have m5 : (sums.adaptability / (cnt : ℚ)) * w.adaptability ≤ 5 * w.adaptability :=
          mul_le_mul_of_nonneg_right E2 w5
        rw [hS, hW]; linarith
      have n1 : 1 ≤ S / W := by rw [le_div_iff₀ wpos]; linarith
      have n2 : S / W ≤ 5 := by rw [div_le_iff₀ wpos]; linarith
      subst hx
      constructor
      · apply le_jsRound; push_cast; linarith
      · apply jsRound_le; push_cast; linarith

end SJS

namespace P3

/-- The question loop of `part_003` (MCIF-5 Interactive Test Engine),
reduced to the index/display bookkeeping: `renderQuestion` shows the
question at the current index when one remains (`finishTest` otherwise) and
answering advances the index.  A click is only possible while a question is
displayed, i.e. while the index is in range. -/
def renderStep (numQuestions : ℕ) (st : ℕ × ℕ) : ℕ × ℕ :=
  if st.1 < numQuestions then
    (st.1 + 1, st.2 + (if st.1 + 1 < numQuestions then 1 else 0))
  else st

/-- A run of the `part_003` engine: `startTest` renders the first question
(when the schema has one), and each of the `clicks` answers advances. -/
def run (numQuestions clicks : ℕ) : ℕ × ℕ :=
  (List.range clicks).foldl (fun st _ => renderStep numQuestions st)
    (0, if 0 < numQuestions then 1 else 0)

lemma run_eq (n : ℕ) : ∀ c, run n c = (min c n, min (c + 1) n) := by
  intro c
  induction c with
  | zero =>
    unfold run
    simp only [List.range_zero, List.foldl_nil]
    by_cases h : 0 < n
    · rw [if_pos h]
      simp only [Prod.mk.injEq]
      omega
    · rw [if_neg h]
      simp only [Prod.mk.injEq]
      omega
  | succ c ih =>
    unfold run at ih ⊢
    rw [List.range_succ, List.foldl_append, ih]
    simp only [List.foldl_cons, List.foldl_nil]
    unfold renderStep
    simp only
    split_ifs <;> simp only [Prod.mk.injEq] <;> omega

end P3

/-- C1: the computed composite score is always within its declared bounds
regardless of input answers.  For every answers map, `computeResults` in
app.js returns `compositePercent` in `[0, 100]` and `composite700` in
`[0, 700]`; for every responses map, `computeComposite` in the Lucid Flow
variant returns a value in `[0, 700]`; and for every transcript, the MCQ
computed by the report generator in script.js lies in `[0, 100]`. -/
theorem claim_C1_composite_bounds :
    (∀ (sqrt : ℚ → ℚ) (phases : List ℕ) (answers : ℕ → ℕ → Option App.Answer),
      0 ≤ (App.computeResults sqrt phases answers).compositePercent ∧
      (App.computeResults sqrt phases answers).compositePercent ≤ 100 ∧
      0 ≤ (App.computeResults sqrt phases answers).composite700 ∧
      (App.computeResults sqrt phases answers).composite700 ≤ 700) ∧
    (∀ (toNum : String → Option ℚ) (responses : Lucid.Responses),
      0 ≤ Lucid.computeComposite toNum responses ∧
        Lucid.computeComposite toNum responses ≤ 700) ∧
    (∀ (schemaDomains : List String) (wbd : String → Option SJS.Weights)
        (tierFactor : ℚ) (transcript : List SJS.TItem),
      0 ≤ SJS.computeMCQ schemaDomains wbd tierFactor transcript ∧
        SJS.computeMCQ schemaDomains wbd tierFactor transcript ≤ 100) := by
  refine ⟨fun sqrt phases answers => ?_,
    fun toNum responses => Lucid.computeComposite_bounds toNum responses,
    fun sd wbd tf tr => SJS.computeMCQ_bounds sd wbd tf tr⟩
  obtain ⟨h1, h2⟩ := App.computeResults_compositePercent_bounds sqrt phases answers
  obtain ⟨h3, h4⟩ := App.computeResults_composite700_bounds sqrt phases answers
  exact ⟨h1, h2, h3, h4⟩

/-- C2: given a fixed schema and a fixed sequence of answers, the resulting
score and archetype label are deterministic and reproducible — equal
answers maps give equal results and equal archetype picks from
`computeResults`/`pickArchetype` in app.js, and equal responses maps give
the same archetype label from `matchArchetype` in the Lucid Flow variant. -/
theorem claim_C2_deterministic :
    ∀ (sqrt : ℚ → ℚ) (phases : List ℕ) (a1 a2 : ℕ → ℕ → Option App.Answer),
      a1 = a2 →
      App.computeResults sqrt phases a1 = App.computeResults sqrt phases a2 ∧
      App.pickArchetype (App.computeResults sqrt phases a1).domainScores =
        App.pickArchetype (App.computeResults sqrt phases a2).domainScores ∧
      ∀ (toNum : String → Option ℚ) (r1 r2 : Lucid.Responses), r1 = r2 →
        Lucid.matchArchetype toNum r1 = Lucid.matchArchetype toNum r2 := by
  intro sqrt phases a1 a2 h
  subst h
  exact ⟨rfl, rfl, fun toNum r1 r2 hr => by rw [hr]⟩

/-- Witness for C2 at a concrete schema, answers map and responses map. -/
theorem claim_C2_witness :
    App.computeResults (fun _ => 0) [2] (fun _ _ => none) =
      App.computeResults (fun _ => 0) [2] (fun _ _ => none) ∧
    App.pickArchetype (App.computeResults (fun _ => 0) [2] (fun _ _ => none)).domainScores =
      App.pickArchetype (App.computeResults (fun _ => 0) [2] (fun _ _ => none)).domainScores ∧
    Lucid.matchArchetype (fun _ => none) [("p1_q1", Lucid.Resp.num 5)] =
      Lucid.matchArchetype (fun _ => none) [("p1_q1", Lucid.Resp.num 5)] := by
  obtain ⟨h1, h2, h3⟩ := claim_C2_deterministic (fun _ => 0) [2] (fun _ _ => none)
    (fun _ _ => none) rfl
  exact ⟨h1, h2, h3 (fun _ => none) [("p1_q1", Lucid.Resp.num 5)]
    [("p1_q1", Lucid.Resp.num 5)] rfl⟩

/-- Counterexample to C3 as stated: with the fallback schema's six phases
and the test section present, saving at phase index 10 and restoring yields
phase index 5 (the re-render clamps the index into range), not the saved 10. -/
theorem claim_C3_counterexample :
    (App.restoreSession App.fallbackPhases true
        (App.saveSession ⟨10, 0, (fun _ _ => none), true⟩)
        ⟨10, 0, (fun _ _ => none), true⟩).currentPhaseIndex = 5 ∧
    (5 : ℕ) ≠ 10 := by
  with_unfolding_all decide

/-- C3 (amended): restoring a saved session reproduces the exact answer
set, progress flag and position that were saved, provided the saved
position indexes an existing question of the current phases array (the
re-render inside `restoreSession` clamps out-of-range indices, but is the
identity on in-range ones). -/
theorem claim_C3_amended :
    ∀ (phases : List ℕ) (ts : Bool) (s t : App.AppState) (qc : ℕ),
      phases[s.currentPhaseIndex]? = some qc →
      s.currentQuestionIndex < qc →
      (App.restoreSession phases ts (App.saveSession s) t).answers = s.answers ∧
      (App.restoreSession phases ts (App.saveSession s) t).currentPhaseIndex =
        s.currentPhaseIndex ∧
      (App.restoreSession phases ts (App.saveSession s) t).currentQuestionIndex =
        s.currentQuestionIndex ∧
      (App.restoreSession phases ts (App.saveSession s) t).inProgress = s.inProgress := by
  intro phases ts s t qc hq hqi
  rw [App.restore_after_save phases ts s t hq hqi]
  exact ⟨rfl, rfl, rfl, rfl⟩

/-- Witness for the amended C3 at a concrete in-range session. -/
theorem claim_C3_witness :
    (App.restoreSession [2, 2] true (App.saveSession ⟨1, 1, (fun _ _ => none), false⟩)
        ⟨1, 1, (fun _ _ => none), false⟩).answers = (fun _ _ => none) ∧
    (App.restoreSession [2, 2] true (App.saveSession ⟨1, 1, (fun _ _ => none), false⟩)
        ⟨1, 1, (fun _ _ => none), false⟩).currentPhaseIndex = 1 ∧
    (App.restoreSession [2, 2] true (App.saveSession ⟨1, 1, (fun _ _ => none), false⟩)
        ⟨1, 1, (fun _ _ => none), false⟩).currentQuestionIndex = 1 ∧
    (App.restoreSession [2, 2] true (App.saveSession ⟨1, 1, (fun _ _ => none), false⟩)
        ⟨1, 1, (fun _ _ => none), false⟩).inProgress = false :=
  claim_C3_amended [2, 2] true ⟨1, 1, (fun _ _ => none), false⟩
    ⟨1, 1, (fun _ _ => none), false⟩ 2 (by with_unfolding_all rfl) (by norm_num)

/-- Counterexample to C4 as stated: in the `part_000` variant, when both
fetch attempts fail, `loadSchema` produces an error — no built-in default
schema is substituted, and the caller renders the error instead of running
the test. -/
theorem claim_C4_counterexample :
    (V000.loadSchema V000.Fetch.fail V000.Fetch.fail).toOption = none := rfl

/-- C4 (amended): the app.js and Lucid Flow variants recover every
schema-load failure (network error, non-ok HTTP status, malformed shape)
by substituting their built-in non-empty default schemas; but the
`part_000` and `part_001` variants have no default schema — on failure
they surface an error (part_000) or report failure with no questions
loaded (part_001). -/
theorem claim_C4_amended :
    (∀ st : ℕ, App.loadSchema (App.FetchResult.httpError st) = App.fallbackPhases) ∧
    App.loadSchema App.FetchResult.netError = App.fallbackPhases ∧
    App.loadSchema (App.FetchResult.ok none) = App.fallbackPhases ∧
    App.loadSchema (App.FetchResult.ok (some [])) = App.fallbackPhases ∧
    App.fallbackPhases ≠ [] ∧
    (∀ st : ℕ, Lucid.loadSchema (Lucid.FetchResult.httpError st) = Lucid.embeddedPhases) ∧
    Lucid.loadSchema Lucid.FetchResult.netError = Lucid.embeddedPhases ∧
    Lucid.loadSchema (Lucid.FetchResult.ok none) = Lucid.embeddedPhases ∧
    Lucid.embeddedPhases ≠ [] ∧
    V000.loadSchema V000.Fetch.fail V000.Fetch.fail =
      Except.error "Could not load schema — check file name and path." ∧
    V001.loadSchema V001.Fetch.fail = (false, []) ∧
    V001.loadSchema (V001.Fetch.ok none) = (false, []) :=
  ⟨fun st => rfl, rfl, rfl, rfl, by decide, fun st => rfl, rfl, rfl, by decide,
   rfl, rfl, rfl⟩

/-- Counterexample to C5 as stated: in script.js, a submission whose
combined Originality reaches 4 with combined Clarity at most 2 splices an
extra clarifying question into the list, so a complete run renders more
questions than the schema supplies (here 2 rendered for a 1-question
schema). -/
theorem claim_C5_counterexample :
    ((SJS.runFlow [⟨"q1", "Logic", "prompt"⟩] 15
        [⟨"", ⟨5, 5, 1, 5, 5⟩⟩, ⟨"", ⟨1, 1, 1, 1, 1⟩⟩]).questionList.length ≤
      (SJS.runFlow [⟨"q1", "Logic", "prompt"⟩] 15
        [⟨"", ⟨5, 5, 1, 5, 5⟩⟩, ⟨"", ⟨1, 1, 1, 1, 1⟩⟩]).currentIndex) ∧
    (SJS.runFlow [⟨"q1", "Logic", "prompt"⟩] 15
        [⟨"", ⟨5, 5, 1, 5, 5⟩⟩, ⟨"", ⟨1, 1, 1, 1, 1⟩⟩]).rendered ≠
      List.length [(⟨"q1", "Logic", "prompt"⟩ : SJS.SQuestion)] := by
  with_unfolding_all decide

/-- C5 (amended): a complete script.js run in which no submission triggers
the adaptive clarifying insertion renders exactly one question per entry of
the prepared question list (the tier's questions, truncated to the mode's
maximum), and the `part_003` variant renders exactly one question per
schema question entry. -/
theorem claim_C5_amended :
    (∀ (bank : List SJS.SQuestion) (qcountMax : ℕ) (inputs : List SJS.SubmitInput),
      (∀ i ∈ inputs, ¬ SJS.triggersClarify i) →
      (SJS.runFlow bank qcountMax inputs).questionList.length ≤
        (SJS.runFlow bank qcountMax inputs).currentIndex →
      (SJS.runFlow bank qcountMax inputs).rendered =
        (SJS.startQuestionFlow bank qcountMax).questionList.length) ∧
    (∀ numQuestions clicks : ℕ, numQuestions ≤ clicks →
      (P3.run numQuestions clicks).2 = numQuestions) := by
  constructor
  · exact fun bank q inputs hno hdone => SJS.runFlow_rendered bank q inputs hno hdone
  · intro n c h
    rw [P3.run_eq]
    show min (c + 1) n = n
    omega

/-- Witness for the amended C5: a one-question run with a neutral
submission renders exactly one question, and a two-question `part_003` run
with three clicks renders both questions. -/
theorem claim_C5_witness :
    (SJS.runFlow [⟨"q1", "Logic", "prompt1"⟩] 5 [⟨"", ⟨3, 3, 1, 3, 3⟩⟩]).rendered =
      (SJS.startQuestionFlow [⟨"q1", "Logic", "prompt1"⟩] 5).questionList.length ∧
    (P3.run 2 3).2 = 2 := by
  constructor
  · apply claim_C5_amended.1
    · intro i hi
      rcases List.mem_singleton.mp hi with rfl
      unfold SJS.triggersClarify
      with_unfolding_all decide
    · with_unfolding_all decide
  · exact claim_C5_amended.2 2 3 (by norm_num)

/-- C6: scores on every named axis are clamped to their declared 0–100
range.  Every per-domain score and the adaptability score returned by
`computeResults` in app.js is an integer in `[0, 100]`; and every non-null
domain score produced by the script.js report generator lies in `[0, 100]`,
for every transcript whose combined ratings sit on the 1–5 scale (as
`submitCurrent` guarantees) and every schema weighting with non-negative
weights of positive total (as the built-in default weighting has); and
every transcript the interactive flow produces does carry combined ratings
on the 1–5 scale. -/
theorem claim_C6_axis_scores_clamped :
    (∀ (sqrt : ℚ → ℚ) (phases : List ℕ) (answers : ℕ → ℕ → Option App.Answer),
      (0 ≤ (App.computeResults sqrt phases answers).domainScores.perception ∧
        (App.computeResults sqrt phases answers).domainScores.perception ≤ 100) ∧
      (0 ≤ (App.computeResults sqrt phases answers).domainScores.logic ∧
        (App.computeResults sqrt phases answers).domainScores.logic ≤ 100) ∧
      (0 ≤ (App.computeResults sqrt phases answers).domainScores.creativity ∧
        (App.computeResults sqrt phases answers).domainScores.creativity ≤ 100) ∧
      (0 ≤ (App.computeResults sqrt phases answers).domainScores.emotion ∧
        (App.computeResults sqrt phases answers).domainScores.emotion ≤ 100) ∧
      (0 ≤ (App.computeResults sqrt phases answers).domainScores.meta ∧
        (App.computeResults sqrt phases answers).domainScores.meta ≤ 100) ∧
      (0 ≤ (App.computeResults sqrt phases answers).adaptability ∧
        (App.computeResults sqrt phases answers).adaptability ≤ 100)) ∧
    (∀ (wbd : String → Option SJS.Weights) (transcript : List SJS.TItem)
        (dom : String) (x : ℤ),
      (∀ d, SJS.WeightsOK ((wbd d).getD SJS.defaultWeights)) →
      (∀ it ∈ transcript, ∀ r, it.combined_ratings = some r → SJS.RatingsBounded r) →
      SJS.domainScore wbd (SJS.accumulate transcript) dom = some x →
      0 ≤ x ∧ x ≤ 100) ∧
    (∀ (bank : List SJS.SQuestion) (qcountMax : ℕ) (inputs : List SJS.SubmitInput),
      ∀ it ∈ (SJS.runFlow bank qcountMax inputs).transcript, ∀ r,
        it.combined_ratings = some r → SJS.RatingsBounded r) := by
  refine ⟨?_, ?_, ?_⟩
  · intro sqrt phases answers
    refine ⟨⟨App.normScore_nonneg _, App.normScore_le _⟩,
      ⟨App.normScore_nonneg _, App.normScore_le _⟩,
      ⟨App.normScore_nonneg _, App.normScore_le _⟩,
      ⟨App.normScore_nonneg _, App.normScore_le _⟩,
      ⟨App.normScore_nonneg _, App.normScore_le _⟩,
      App.adaptabilityOf_bounds sqrt _⟩
  · exact fun wbd transcript dom x hw ht hx => SJS.domainScore_bounds hw ht hx
  · exact fun bank q inputs => SJS.runFlow_transcript_bounded bank q inputs

/-- Witness for C6 at a concrete answers map and a concrete one-item
transcript with default weighting, whose Logic domain score evaluates
to 50. -/
theorem claim_C6_witness :
    (0 ≤ (App.computeResults (fun _ => 0) [1] (fun _ _ => none)).domainScores.perception ∧
      (App.computeResults (fun _ => 0) [1] (fun _ _ => none)).domainScores.perception ≤ 100) ∧
    (0 ≤ (50 : ℤ) ∧ (50 : ℤ) ≤ 100) := by
  constructor
  · exact ((claim_C6_axis_scores_clamped.1 (fun _ => 0) [1] (fun _ _ => none)).1)
  · apply claim_C6_axis_scores_clamped.2.1 (fun _ => none)
      [⟨"Logic", some ⟨3, 3, 3, 3, 3⟩⟩] "Logic" 50
    · intro d
      unfold SJS.WeightsOK SJS.defaultWeights
      with_unfolding_all decide
    · intro it hit r hr
      rcases List.mem_singleton.mp hit with rfl
      have hr' : some (⟨3, 3, 3, 3, 3⟩ : SJS.Ratings) = some r := hr
      rcases Option.some.injEq _ _ ▸ hr' with rfl
      unfold SJS.RatingsBounded
      with_unfolding_all decide
    · with_unfolding_all rfl

/-- C7: every answer references an existing question — in every world
reachable through the app.js operations (recording during rendering,
navigation, session save/restore, start, clear), every phase/question key
present in the answers map indexes a question that exists in the
normalized phases array. -/
theorem claim_C7_answers_reference_questions :
    ∀ (phases : List ℕ) (w : App.World),
      App.Reachable phases w → App.validAnswers phases w.1.answers :=
  fun phases w h => (App.reachable_inv h).1

/-- Witness for C7 at the initial world of a concrete two-phase schema. -/
theorem claim_C7_witness :
    App.validAnswers [2, 2] App.initWorld.1.answers :=
  claim_C7_answers_reference_questions [2, 2] App.initWorld Relation.ReflTransGen.refl

/-- C8: `pickArchetype` is total and its confidence output is bounded — for
every domain-score profile some prototype matches (the Balanced Strategist
fallback accepts any profile), and the returned confidence lies in
`[20, 98]`. -/
theorem claim_C8_pickArchetype_total_bounded :
    ∀ s : App.DomainScores,
      (App.prototypes.find? (fun p => p.matchRule s)).isSome = true ∧
      20 ≤ (App.pickArchetype s).confidence ∧ (App.pickArchetype s).confidence ≤ 98 :=
  fun s => ⟨App.pickArchetype_total s, (App.pickArchetype_confidence_bounds s).1,
    (App.pickArchetype_confidence_bounds s).2⟩

/-- Counterexample to C9 as stated: on the non-empty phases array `[1, 0]`
(first phase one question, second phase none — a shape `normalizeSchema`
accepts), starting from the valid position (0, 0), `goNext` lands on phase
1 with question index 0, but phase 1 has no question at index 0. -/
theorem claim_C9_counterexample :
    (0 : ℕ) < [1, 0].length ∧
    [1, 0][(⟨0, 0, (fun _ _ => none), false⟩ : App.AppState).currentPhaseIndex]? = some 1 ∧
    (⟨0, 0, (fun _ _ => none), false⟩ : App.AppState).currentQuestionIndex < 1 ∧
    (App.goNext [1, 0] true ⟨0, 0, (fun _ _ => none), false⟩).currentPhaseIndex = 1 ∧
    (App.goNext [1, 0] true ⟨0, 0, (fun _ _ => none), false⟩).currentQuestionIndex = 0 ∧
    [1, 0][(App.goNext [1, 0] true ⟨0, 0, (fun _ _ => none), false⟩).currentPhaseIndex]?
      = some 0 := by
  with_unfolding_all decide

/-- C9 (amended): navigation preserves in-bounds position on every phases
array whose phases each contain at least one question — from any position
indexing an existing question, a single `goNext` or `goPrev` step again
indexes an existing question of the (possibly new) current phase. -/
theorem claim_C9_amended :
    ∀ (phases : List ℕ) (ts : Bool) (s : App.AppState) (qc : ℕ),
      phases ≠ [] → (∀ q ∈ phases, 0 < q) →
      phases[s.currentPhaseIndex]? = some qc →
      s.currentQuestionIndex < qc →
      (∃ qc', phases[(App.goNext phases ts s).currentPhaseIndex]? = some qc' ∧
        (App.goNext phases ts s).currentQuestionIndex < qc') ∧
      (∃ qc', phases[(App.goPrev phases ts s).currentPhaseIndex]? = some qc' ∧
        (App.goPrev phases ts s).currentQuestionIndex < qc') :=
  fun phases ts s qc hne hall hq hqi =>
    ⟨App.goNext_valid phases ts s hall hq hqi, App.goPrev_valid phases ts s hall hq hqi⟩

/-- Witness for the amended C9 on the concrete phases `[2, 1]` from the
valid position (0, 1). -/
theorem claim_C9_witness :
    (∃ qc', [2, 1][(App.goNext [2, 1] true ⟨0, 1, (fun _ _ => none), false⟩).currentPhaseIndex]?
        = some qc' ∧
      (App.goNext [2, 1] true ⟨0, 1, (fun _ _ => none), false⟩).currentQuestionIndex < qc') ∧
    (∃ qc', [2, 1][(App.goPrev [2, 1] true ⟨0, 1, (fun _ _ => none), false⟩).currentPhaseIndex]?
        = some qc' ∧
      (App.goPrev [2, 1] true ⟨0, 1, (fun _ _ => none), false⟩).currentQuestionIndex < qc') :=
  claim_C9_amended [2, 1] true ⟨0, 1, (fun _ _ => none), false⟩ 2
    (by decide) (by decide) (by with_unfolding_all rfl) (by norm_num)

/-- C10: combined ratings stay on the 1–5 scale — in script.js, for every
response text and every self-rating vector with components in `[1, 5]`,
each per-metric combined rating produced by `submitCurrent` (self-rating
plus heuristic boosts, clipped) lies in `[1, 5]`. -/
theorem claim_C10_combined_ratings_clipped :
    ∀ (response : String) (r : SJS.Ratings),
      SJS.RatingsBounded r →
      SJS.RatingsBounded (SJS.combinedRatings response.trim r) :=
  fun response r h => SJS.combinedRatings_bounded response.trim r

/-- Witness for C10 at a concrete response and rating vector. -/
theorem claim_C10_witness :
    SJS.RatingsBounded (SJS.combinedRatings ("It maps. It sings. It holds." : String).trim
      ⟨3, 4, 2, 5, 1⟩) := by
  apply claim_C10_combined_ratings_clipped
  unfold SJS.RatingsBounded
  with_unfolding_all decide

end MCIF
